import Mathlib

/-!
Shallow embedding of `src/main.py` (scrapbox-to-obsidian converter).

Python strings are modelled as `List Char`.  Warnings printed through
`log` are modelled as an explicit list of warning-message strings
returned alongside the converted output, so every converter returns a
pair `(output, warnings)`.
-/

set_option maxRecDepth 10000

abbrev Str := List Char

/-- Character used for markdown code spans, written by code point to keep
the source free of stray literals. -/
def btick : Char := Char.ofNat 96

/-- Whitespace as Python's no-argument `str.strip()` and regex `\s` (for
`str` patterns) see it: CPython's `Py_UNICODE_ISSPACE`, i.e. `\t\n\v\f\r`,
the separators U+001C-U+001F, space, U+0085 (NEL), U+00A0 (NBSP), U+1680
(ogham space mark), U+2000-U+200A, U+2028, U+2029, U+202F, U+205F and
U+3000 (ideographic space). -/
def pySpace (c : Char) : Bool :=
  let n := c.toNat
  decide ((0x09 ≤ n ∧ n ≤ 0x0D) ∨ (0x1C ≤ n ∧ n ≤ 0x1F) ∨ n = 0x20 ∨
    n = 0x85 ∨ n = 0xA0 ∨ n = 0x1680 ∨ (0x2000 ≤ n ∧ n ≤ 0x200A) ∨
    n = 0x2028 ∨ n = 0x2029 ∨ n = 0x202F ∨ n = 0x205F ∨ n = 0x3000)

/-- Python `s.strip(chars)`: remove characters belonging to `chars` from both
ends of `s`. -/
def pyStrip (chars : Str) (s : Str) : Str :=
  ((s.dropWhile (fun c => chars.contains c)).reverse.dropWhile
    (fun c => chars.contains c)).reverse

/-- Python `s.strip()` with no argument: remove whitespace from both ends. -/
def pyStripSpace (s : Str) : Str :=
  ((s.dropWhile pySpace).reverse.dropWhile pySpace).reverse

/-- Embeds `convert_filename_to_lang`: markdown langcode for a code block,
or "" when the filename has no extension; known extensions are mapped
through the `ext_to_lang` table, unknown ones pass through. -/
def convert_filename_to_lang (filename : Str) : Str :=
  let fn := filename.map Char.toLower
  if fn.contains '.' then
    let ext := (fn.reverse.takeWhile (fun c => c ≠ '.')).reverse
    if ext = "py".toList then "python".toList
    else if ext = "js".toList then "js".toList
    else ext
  else []

/-- Embeds `separate_head`: count characters of `symbol` at the beginning of
`s` (Python `s.lstrip(symbol)`) and return `(count, rest)`. -/
def separate_head (s : Str) (symbol : Str) : Nat × Str :=
  let rest := s.dropWhile (fun c => symbol.contains c)
  (s.length - rest.length, rest)

/-- First character belongs to one of the ASCII symbol ranges of `PAT_SYM`
(`[\x21-\x2F\x3A-\x40\x5B-\x60\x7B-\x7E]`). -/
def isSymChar (c : Char) : Bool :=
  let n := c.toNat
  decide ((0x21 ≤ n ∧ n ≤ 0x2F) ∨ (0x3A ≤ n ∧ n ≤ 0x40) ∨
    (0x5B ≤ n ∧ n ≤ 0x60) ∨ (0x7B ≤ n ∧ n ≤ 0x7E))

/-- Matches `re.match(PAT_SYM, content)`: nonempty and the first character is
a symbol. -/
def headIsSym (content : Str) : Bool :=
  match content.head? with
  | some c => isSymChar c
  | none => false

/-- Group 2 of `PAT_URL` in isolation: `https?://\S+`, i.e. an URL scheme
followed by at least one further character. -/
def urlToken (u : Str) : Bool :=
  ("http://".toList.isPrefixOf u && decide (u.length ≥ 8)) ||
  ("https://".toList.isPrefixOf u && decide (u.length ≥ 9))

/-- Embeds `re.match(r'^(.*\s+)(https?://\S+)$', content)`, returning
`some (group1, group2)` on a match.  Because `\S+` must run to `$`, the URL
(group 2) is exactly the maximal non-whitespace suffix; `$` may also sit
just before one final newline; group 1 is everything before the URL and must
end in whitespace, with `.*` unable to cross a newline, so every newline of
group 1 must lie inside the trailing whitespace run. -/
def matchURL (content : Str) : Option (Str × Str) :=
  let b := if content.getLast? = some '\n' then content.dropLast else content
  let u := (b.reverse.takeWhile (fun c => !(pySpace c))).reverse
  let p := b.take (b.length - u.length)
  let a0 := (p.reverse.dropWhile pySpace).reverse
  if p ≠ [] ∧ urlToken u = true ∧ a0.contains '\n' = false then some (p, u)
  else none

/-- Warning text logged when a large-font bold span appears mid-line. -/
def warn_bold (content : Str) : Str :=
  "WARN: link-ish object [".toList ++ content ++
    "] is large-font bold, but converted to normal bold".toList

/-- Warning text logged when a span starting with a special symbol is turned
into a code span. -/
def warn_sym (content : Str) : Str :=
  "WARN: link-ish object [".toList ++ content ++
    "] starts with special symbol, converted to `code`".toList

/-- Embeds `convert_linkish`: convert the content of a bracketed span
(`[...]`) to markdown, also returning the warnings it logs.  The ordered
rule chain mirrors the Python `if` chain exactly. -/
def convert_linkish (content : Str) (entire_line : Bool) : Str × List Str :=
  if "- ".toList.isPrefixOf content then
    ("~~".toList ++ content.drop 2 ++ "~~".toList, [])
  else if ['*'].isPrefixOf content then
    let p := separate_head content ['*']
    let rest := p.2.dropWhile pySpace
    if entire_line = true ∧ p.1 > 1 then
      (List.replicate (max 1 (8 - p.1)) '#' ++ ' ' :: rest, [])
    else
      ("**".toList ++ rest ++ "**".toList,
        if p.1 ≥ 2 then [warn_bold content] else [])
  else if ['/'].isPrefixOf content then
    ('[' :: content ++ "](https://scrapbox.io".toList ++ content ++ [')'], [])
  else if "https://gyazo.com/".toList.isPrefixOf content then
    ("![](".toList ++ content ++ ".png)".toList, [])
  else if "https://www.youtube.com/watch?v=".toList.isPrefixOf content then
    ("![](".toList ++ content ++ [')'], [])
  else
    match matchURL content with
    | some pu =>
      let desc := pyStripSpace pu.1
      if desc = [] then (' ' :: pu.2 ++ [' '], [])
      else ('[' :: desc ++ "](".toList ++ pu.2 ++ [')'], [])
    | none =>
      if ".icon".toList.isSuffixOf content then
        ('(' :: content.take (content.length - 5) ++ [')'], [])
      else if headIsSym content then
        (btick :: content ++ [btick], [warn_sym content])
      else
        ("[[".toList ++ content ++ "]]".toList, [])

/-- Scanner mode of `convert_line_content`: Python's `None`, `"code"`,
`"link"`. -/
inductive Mode
  | plain
  | code
  | link
deriving DecidableEq, Repr

/-- Scanner state of `convert_line_content`: current mode, the `link_accum`
buffer, the output accumulated in `res` (list join modelled as one string),
and the warnings logged so far. -/
structure ScanSt where
  mode : Mode
  accum : Str
  out : Str
  warns : List Str
deriving DecidableEq, Repr

/-- One step of the character loop of `convert_line_content`. -/
def clcStep (st : ScanSt) (c : Char) : ScanSt :=
  match st.mode with
  | Mode.plain =>
    if c = btick then ⟨Mode.code, st.accum, st.out ++ [c], st.warns⟩
    else if c = '[' then ⟨Mode.link, [], st.out, st.warns⟩
    else ⟨Mode.plain, st.accum, st.out ++ [c], st.warns⟩
  | Mode.code =>
    if c = btick then ⟨Mode.plain, st.accum, st.out ++ [c], st.warns⟩
    else ⟨Mode.code, st.accum, st.out ++ [c], st.warns⟩
  | Mode.link =>
    if c = btick then ⟨Mode.code, st.accum, st.out ++ [c], st.warns⟩
    else if c = ']' then
      let r := convert_linkish st.accum false
      ⟨Mode.plain, st.accum, st.out ++ r.1, st.warns ++ r.2⟩
    else ⟨Mode.link, st.accum ++ [c], st.out, st.warns⟩

/-- Embeds `convert_line_content`: scan a line's content, converting inline
`` `...` `` code spans and `[...]` link spans. -/
def convert_line_content (lc : Str) : Str × List Str :=
  let st := lc.foldl clcStep ⟨Mode.plain, [], [], []⟩
  (st.out, st.warns)

/-- Matches the tail of the regex `^\[[^\]]*\]$` after the opening bracket:
no `]` before the final one, which sits at the end (or just before one
trailing newline, as Python's `$` allows). -/
def tailLinkish : Str → Bool
  | [] => false
  | c :: rest =>
    if c = ']' then rest = [] || rest = ['\n']
    else tailLinkish rest

/-- Matches `re.match(r'^\[[^\]]*\]$', line)`. -/
def lineIsLinkish : Str → Bool
  | '[' :: rest => tailLinkish rest
  | _ => false

/-- Embeds `convert_normal_line`: entire-line bracket spans go to
`convert_linkish` with `entire_line = True` after `strip("[]")`; otherwise
the leading space/tab run becomes list-item indentation. -/
def convert_normal_line (line : Str) : Str × List Str :=
  if lineIsLinkish line then convert_linkish (pyStrip "[]".toList line) true
  else
    let p := separate_head line [' ', '\t']
    if p.1 > 0 then
      let r := convert_line_content p.2
      (List.replicate (p.1 - 1) '\t' ++ '*' :: ' ' :: r.1, r.2)
    else convert_line_content p.2

/-- A scrapbox page as `convert_page` sees it: the fields of `page_json`
that it reads (`title` is only used by the caller for the filename). -/
structure Page where
  title : Str
  lines : List Str

/-- One step of the line loop of `convert_page`: state is
`(in_codeblock, md_lines, warnings)`. -/
def pageStep (st : Bool × List Str × List Str) (line : Str) :
    Bool × List Str × List Str :=
  if st.1 then
    if [' '].isPrefixOf line then (true, st.2.1 ++ [line.drop 1], st.2.2)
    else (false, st.2.1 ++ ["```".toList], st.2.2)
  else
    if "code:".toList.isPrefixOf line then
      let filename := line.drop 5
      (true,
        st.2.1 ++ [btick :: filename ++ [btick],
          "```".toList ++ convert_filename_to_lang filename],
        st.2.2)
    else
      let r := convert_normal_line line
      (false, st.2.1 ++ [r.1], st.2.2 ++ r.2)

/-- Embeds `convert_page`: run the code-block state machine over the page's
lines, close an unterminated code block, append the trailing empty line and
join with newlines. -/
def convert_page (p : Page) : Str × List Str :=
  let st := p.lines.foldl pageStep (false, [], [])
  let md := if st.1 then st.2.1 ++ ["```".toList] else st.2.1
  (List.intercalate ['\n'] (md ++ [[]]), st.2.2)

lemma len_takeWhile_add_dropWhile (p : Char → Bool) (l : Str) :
    (l.takeWhile p).length + (l.dropWhile p).length = l.length := by
  rw [← List.length_append, List.takeWhile_append_dropWhile]

lemma tailLinkish_append (mid : Str) (h : ']' ∉ mid) :
    tailLinkish (mid ++ [']']) = true := by
  induction mid with
  | nil => rfl
  | cons c rest ih =>
    have hc : c ≠ ']' := fun hc => h (by simp [hc])
    have hr : ']' ∉ rest := fun hm => h (List.mem_cons_of_mem _ hm)
    simpa [tailLinkish, hc] using ih hr

/-- C1 counterexample: the claim predicts that the non-indented line `done`
closing the code fence is itself converted and appears after the closing
fence; the code instead consumes it, so the predicted body is not
produced. -/
theorem c1_counterexample :
    (convert_page ⟨"p".toList,
      ["code:x.py".toList, " print(1)".toList, " print(2)".toList,
        "done".toList]⟩).1 ≠
    "`x.py`\n```python\nprint(1)\nprint(2)\n```\ndone\n".toList := by
  decide

/-- C1 amended: when an open code-fence region meets a line that does not
start with a space, `convert_page` emits the closing fence and consumes that
line without converting it, so the line's converted form does not appear; in
particular the example page yields a body without `done`. -/
theorem c1_amended (md w : List Str) (line : Str)
    (h : line.head? ≠ some ' ') :
    pageStep (true, md, w) line = (false, md ++ ["```".toList], w) ∧
    convert_page ⟨"p".toList,
      ["code:x.py".toList, " print(1)".toList, " print(2)".toList,
        "done".toList]⟩ =
      ("`x.py`\n```python\nprint(1)\nprint(2)\n```\n".toList, []) := by
  constructor
  · have hp : [' '].isPrefixOf line = false := by
      cases line with
      | nil => rfl
      | cons c t =>
        have hc : c ≠ ' ' := fun hc => h (by simp [hc])
        have hc' : ¬ (' ' = c) := fun hh => hc hh.symm
        simp [List.isPrefixOf, hc']
    simp [pageStep, hp]
  · decide

theorem c1_witness :
    ("done".toList.head? ≠ some ' ') ∧
    pageStep (true, [], []) "done".toList = (false, ["```".toList], []) :=
  ⟨by decide, by
    have h := c1_amended [] [] "done".toList (by decide)
    simpa using h.1⟩

/-- C2 counterexample: the line `[[x]` satisfies the claim's precondition
(starts with `[`, ends with `]`, no other `]` before the final one), but
`strip("[]")` removes both leading brackets, so the result is not
`convert_linkish("[x", entire_line=true)` as the claim states. -/
theorem c2_counterexample :
    ("[[x]".toList.head? = some '[') ∧
    ("[[x]".toList.getLast? = some ']') ∧
    (']' ∉ "[[x]".toList.dropLast) ∧
    convert_normal_line "[[x]".toList ≠ convert_linkish "[x".toList true :=
  ⟨by decide, by decide, by decide, by decide⟩

/-- C2 amended: for an entire-line bracket span (regex `^\[[^\]]*\]$`),
`convert_normal_line` returns `convert_linkish(content, entire_line=true)`
where `content` is the line with ALL leading and trailing `[`/`]` characters
stripped (Python `strip("[]")`), and no indentation handling is applied. -/
theorem c2_amended (line mid : Str) (h : line = '[' :: mid ++ [']'])
    (hmid : ']' ∉ mid) :
    convert_normal_line line = convert_linkish (pyStrip "[]".toList line) true := by
  have hl : lineIsLinkish line = true := by
    subst h
    simpa [lineIsLinkish] using tailLinkish_append mid hmid
  simp [convert_normal_line, hl]

theorem c2_witness :
    ("[[x]".toList = '[' :: "[x".toList ++ [']']) ∧ (']' ∉ "[x".toList) ∧
    convert_normal_line "[[x]".toList = convert_linkish "x".toList true :=
  ⟨by decide, by decide, by
    have h := c2_amended "[[x]".toList "[x".toList (by decide) (by decide)
    exact h.trans (by decide)⟩

/-- C4: a span content starting with `/` becomes a link with the literal
content as label and `https://scrapbox.io` ++ content as target, in both
entire-line and mid-line position; the `/` rule fires before the `.icon`
rule because the chain is evaluated in order with first match winning. -/
theorem c4_slash_rule (content : Str) (el : Bool)
    (h : ['/'].isPrefixOf content = true) :
    convert_linkish content el =
      ('[' :: content ++ "](https://scrapbox.io".toList ++ content ++ [')'],
        []) := by
  cases content with
  | nil => simp [List.isPrefixOf] at h
  | cons c t =>
    have hc : c = '/' := ((by simpa [List.isPrefixOf] using h : '/' = c)).symm
    subst hc
    simp [convert_linkish, List.isPrefixOf]

theorem c4_witness :
    (['/'].isPrefixOf "/proj/x.icon".toList = true) ∧
    convert_linkish "/proj/x.icon".toList true =
      ("[/proj/x.icon](https://scrapbox.io/proj/x.icon)".toList, []) :=
  ⟨by decide, by
    have h := c4_slash_rule "/proj/x.icon".toList true (by decide)
    exact h.trans (by decide)⟩

/-- C6: a page ending while a code-fence region is still open gets exactly
one closing fence line appended, immediately before the trailing empty
line. -/
theorem c6_unterminated (title : Str) (lines : List Str)
    (h : (lines.foldl pageStep (false, [], [])).1 = true) :
    (convert_page ⟨title, lines⟩).1 =
      List.intercalate ['\n']
        ((lines.foldl pageStep (false, [], [])).2.1 ++ ["```".toList, []]) := by
  simp [convert_page, h]

theorem c6_witness :
    ((["code:a.py".toList] : List Str).foldl pageStep (false, [], [])).1 =
      true ∧
    (convert_page ⟨"t".toList, ["code:a.py".toList]⟩).1 =
      List.intercalate ['\n']
        (((["code:a.py".toList] : List Str).foldl pageStep
            (false, [], [])).2.1 ++ ["```".toList, []]) :=
  ⟨by decide, c6_unterminated "t".toList ["code:a.py".toList] (by decide)⟩

/-- C10: an opening bracket met while already in bracket-span mode is
appended to the accumulated span content (not copied to output, no new span
started); mid-line `[[Page]]` yields the span decision for content `[Page`
(a code span plus a symbol warning) followed by a literal `]` in plain
mode. -/
theorem c10_nested_open_bracket :
    (∀ (a out : Str) (w : List Str),
      clcStep ⟨Mode.link, a, out, w⟩ '[' = ⟨Mode.link, a ++ ['['], out, w⟩) ∧
    convert_line_content "[[Page]]".toList =
      ("`[Page`]".toList, [warn_sym "[Page".toList]) := by
  constructor
  · intro a out w
    have h1 : ('[' : Char) ≠ btick := by decide
    have h2 : ('[' : Char) ≠ ']' := by decide
    simp [clcStep, h1, h2]
  · decide

lemma sep_star (content : Str) :
    separate_head content ['*'] =
      ((content.takeWhile (fun c => c == '*')).length,
        content.dropWhile (fun c => c == '*')) := by
  have hp : (fun c => (['*'] : Str).contains c) = (fun c => c == '*') := by
    funext c
    simp only [List.contains, List.elem]
    cases h : c == '*' <;> simp [h]
  have hlen := len_takeWhile_add_dropWhile (fun c => c == '*') content
  unfold separate_head
  simp only [hp]
  show (content.length - (content.dropWhile (fun c => c == '*')).length,
    content.dropWhile (fun c => c == '*')) = _
  have h2 : content.length -
      (content.dropWhile (fun c => c == '*')).length =
      (content.takeWhile (fun c => c == '*')).length := by omega
  rw [h2]

lemma sep_indent (line : Str) :
    separate_head line [' ', '\t'] =
      ((line.takeWhile (fun c => c == ' ' || c == '\t')).length,
        line.dropWhile (fun c => c == ' ' || c == '\t')) := by
  have hp : (fun c => ([' ', '\t'] : Str).contains c) =
      (fun c => c == ' ' || c == '\t') := by
    funext c
    simp only [List.contains, List.elem]
    cases h1 : c == ' ' <;> cases h2 : c == '\t' <;> simp [h1, h2]
  have hlen := len_takeWhile_add_dropWhile
    (fun c => c == ' ' || c == '\t') line
  unfold separate_head
  simp only [hp]
  show (line.length -
      (line.dropWhile (fun c => c == ' ' || c == '\t')).length,
    line.dropWhile (fun c => c == ' ' || c == '\t')) = _
  have h2 : line.length -
      (line.dropWhile (fun c => c == ' ' || c == '\t')).length =
      (line.takeWhile (fun c => c == ' ' || c == '\t')).length := by omega
  rw [h2]

lemma convert_linkish_star (t : Str) (el : Bool) :
    convert_linkish ('*' :: t) el =
      (let p := separate_head ('*' :: t) ['*']
       let rest := p.2.dropWhile pySpace
       if el = true ∧ p.1 > 1 then
         (List.replicate (max 1 (8 - p.1)) '#' ++ ' ' :: rest, [])
       else
         ("**".toList ++ rest ++ "**".toList,
           if p.1 ≥ 2 then [warn_bold ('*' :: t)] else [])) := by
  have h1 : ¬("- ".toList.isPrefixOf ('*' :: t) = true) := by
    simp [List.isPrefixOf]
  have h2 : ['*'].isPrefixOf ('*' :: t) = true := by
    simp [List.isPrefixOf]
  unfold convert_linkish
  rw [if_neg h1, if_pos h2]

/-- C3: a span content beginning with a run of N asterisks becomes, when
`entire_line` holds and N > 1, a heading of `max 1 (8 - N)` hashes followed
by the rest after the run and any whitespace; otherwise bold `**rest**`,
with a lossy-conversion warning exactly when N ≥ 2, and never a heading in
that branch. -/
theorem c3_font_spans (content : Str) (el : Bool)
    (h : content.head? = some '*') :
    ((el = true ∧ (content.takeWhile (fun c => c == '*')).length > 1) →
      convert_linkish content el =
        (List.replicate
            (max 1 (8 - (content.takeWhile (fun c => c == '*')).length)) '#' ++
          ' ' :: ((content.dropWhile (fun c => c == '*')).dropWhile pySpace),
          [])) ∧
    ((el = false ∨ (content.takeWhile (fun c => c == '*')).length = 1) →
      convert_linkish content el =
        ("**".toList ++
            ((content.dropWhile (fun c => c == '*')).dropWhile pySpace) ++
            "**".toList,
          if (content.takeWhile (fun c => c == '*')).length ≥ 2 then
            [warn_bold content]
          else [])) := by
  obtain ⟨t, rfl⟩ : ∃ t, content = '*' :: t := by
    cases content with
    | nil => simp at h
    | cons c t =>
      refine ⟨t, ?_⟩
      have hc : c = '*' := by simpa using h
      simp [hc]
  constructor
  · rintro ⟨hel, hN⟩
    rw [convert_linkish_star]
    simp only [sep_star]
    rw [if_pos ⟨hel, hN⟩]
  · intro h2
    have hneg : ¬(el = true ∧
        (('*' :: t).takeWhile (fun c => c == '*')).length > 1) := by
      rcases h2 with h2 | h2
      · rintro ⟨hel, _⟩
        rw [h2] at hel
        cases hel
      · rintro ⟨_, hN⟩
        omega
    rw [convert_linkish_star]
    simp only [sep_star]
    rw [if_neg hneg]

theorem c3_witness :
    ("** Hi".toList.head? = some '*') ∧
    convert_linkish "** Hi".toList true = ("###### Hi".toList, []) ∧
    convert_linkish "** Hi".toList false =
      ("**Hi**".toList, [warn_bold "** Hi".toList]) ∧
    convert_linkish "**\u3000X".toList true = ("###### X".toList, []) :=
  ⟨by decide, by
    have h := (c3_font_spans "** Hi".toList true (by decide)).1
      ⟨rfl, by decide⟩
    exact h.trans (by decide), by
    have h := (c3_font_spans "** Hi".toList false (by decide)).2
      (Or.inl rfl)
    exact h.trans (by decide), by
    have h := (c3_font_spans "**\u3000X".toList true (by decide)).1
      ⟨rfl, by decide⟩
    exact h.trans (by decide)⟩

/-- C5: a normal line that is not an entire-line bracket span with k leading
space-or-tab characters is converted to (k-1) tabs, then `* `, then the
inline conversion of the remainder when k > 0, and to the inline conversion
of the whole line when k = 0. -/
theorem c5_indent_conversion (line : Str) (h : lineIsLinkish line = false) :
    convert_normal_line line =
      (if (line.takeWhile (fun c => c == ' ' || c == '\t')).length = 0 then
        convert_line_content line
      else
        (List.replicate
            ((line.takeWhile (fun c => c == ' ' || c == '\t')).length - 1)
            '\t' ++ '*' :: ' ' ::
            (convert_line_content
              (line.dropWhile (fun c => c == ' ' || c == '\t'))).1,
          (convert_line_content
            (line.dropWhile (fun c => c == ' ' || c == '\t'))).2)) := by
  by_cases hk : (line.takeWhile (fun c => c == ' ' || c == '\t')).length = 0
  · have htk : line.takeWhile (fun c => c == ' ' || c == '\t') = [] :=
      List.eq_nil_of_length_eq_zero hk
    have hdw : line.dropWhile (fun c => c == ' ' || c == '\t') = line := by
      conv_rhs => rw [← List.takeWhile_append_dropWhile
        (fun c => c == ' ' || c == '\t') line]
      rw [htk]
      simp
    simp [convert_normal_line, h, sep_indent, hk, hdw]
  · have hpos : (line.takeWhile (fun c => c == ' ' || c == '\t')).length > 0 :=
      Nat.pos_of_ne_zero hk
    simp [convert_normal_line, h, sep_indent, hk, hpos]

theorem c5_witness :
    (lineIsLinkish "\t\tHello".toList = false) ∧
    convert_normal_line "\t\tHello".toList = ("\t* Hello".toList, []) ∧
    (lineIsLinkish "Hello".toList = false) ∧
    convert_normal_line "Hello".toList = ("Hello".toList, []) :=
  ⟨by decide, by
    have h := c5_indent_conversion "\t\tHello".toList (by decide)
    exact h.trans (by decide), by decide, by
    have h := c5_indent_conversion "Hello".toList (by decide)
    exact h.trans (by decide)⟩

/-- Two scanner states that agree on everything observable: same mode,
output and warnings, and same accumulator whenever the mode reads it
(bracket-span mode). -/
def StAgree (s t : ScanSt) : Prop :=
  s.mode = t.mode ∧ s.out = t.out ∧ s.warns = t.warns ∧
    (s.mode = Mode.link → s.accum = t.accum)

lemma clcStep_agree (s t : ScanSt) (c : Char) (h : StAgree s t) :
    StAgree (clcStep s c) (clcStep t c) := by
  obtain ⟨sm, sa, so, sw⟩ := s
  obtain ⟨tm, ta, tu, tw⟩ := t
  obtain ⟨hm, ho, hw, ha⟩ := h
  simp only at hm ho hw ha
  subst hm
  subst ho
  subst hw
  cases sm with
  | plain =>
    simp only [clcStep]
    split_ifs <;> exact ⟨rfl, rfl, rfl, fun hh => by cases hh <;> rfl⟩
  | code =>
    simp only [clcStep]
    split_ifs <;> exact ⟨rfl, rfl, rfl, by intro hh; cases hh⟩
  | link =>
    have : sa = ta := ha rfl
    subst this
    exact ⟨rfl, rfl, rfl, fun _ => rfl⟩

lemma clc_fold_agree (l : Str) (s t : ScanSt) (h : StAgree s t) :
    StAgree (l.foldl clcStep s) (l.foldl clcStep t) := by
  induction l generalizing s t with
  | nil => exact h
  | cons c rest ih => exact ih _ _ (clcStep_agree s t c h)

/-- C7: a backtick met in bracket-span mode switches the scanner to
code-span mode with the backtick copied to output; the accumulated span
content never reaches the output afterwards (the scan result is independent
of it), and the backtick closing the embedded code span resumes plain mode,
not bracket accumulation. -/
theorem c7_backtick_discards_span (a a' out : Str) (w : List Str)
    (rest : Str) :
    clcStep ⟨Mode.link, a, out, w⟩ btick = ⟨Mode.code, a, out ++ [btick], w⟩ ∧
    clcStep ⟨Mode.code, a, out, w⟩ btick =
      ⟨Mode.plain, a, out ++ [btick], w⟩ ∧
    ((btick :: rest).foldl clcStep ⟨Mode.link, a, out, w⟩).out =
      ((btick :: rest).foldl clcStep ⟨Mode.link, a', out, w⟩).out ∧
    ((btick :: rest).foldl clcStep ⟨Mode.link, a, out, w⟩).warns =
      ((btick :: rest).foldl clcStep ⟨Mode.link, a', out, w⟩).warns := by
  have hstep : ∀ (x : Str), clcStep ⟨Mode.link, x, out, w⟩ btick =
      ⟨Mode.code, x, out ++ [btick], w⟩ := by
    intro x
    simp [clcStep]
  have hagree := clc_fold_agree rest ⟨Mode.code, a, out ++ [btick], w⟩
    ⟨Mode.code, a', out ++ [btick], w⟩ ⟨rfl, rfl, rfl, by intro hh; cases hh⟩
  refine ⟨hstep a, by simp [clcStep], ?_, ?_⟩
  · simpa [List.foldl_cons, hstep] using hagree.2.1
  · simpa [List.foldl_cons, hstep] using hagree.2.2.1

lemma link_scan (rest : Str) (h : ∀ c ∈ rest, c ≠ btick ∧ c ≠ ']') :
    ∀ (a out : Str) (w : List Str),
      rest.foldl clcStep ⟨Mode.link, a, out, w⟩ =
        ⟨Mode.link, a ++ rest, out, w⟩ := by
  induction rest with
  | nil =>
    intro a out w
    simp
  | cons c t ih =>
    intro a out w
    obtain ⟨h1, h2⟩ := h c (by simp)
    have ht : ∀ x ∈ t, x ≠ btick ∧ x ≠ ']' := fun x hx => h x (by simp [hx])
    simp only [List.foldl_cons, clcStep, if_neg h1, if_neg h2]
    rw [ih ht (a ++ [c]) out w]
    simp

lemma plain_scan (pre : Str) (h : ∀ c ∈ pre, c ≠ btick ∧ c ≠ '[') :
    ∀ (a out : Str) (w : List Str),
      pre.foldl clcStep ⟨Mode.plain, a, out, w⟩ =
        ⟨Mode.plain, a, out ++ pre, w⟩ := by
  induction pre with
  | nil =>
    intro a out w
    simp
  | cons c t ih =>
    intro a out w
    obtain ⟨h1, h2⟩ := h c (by simp)
    have ht : ∀ x ∈ t, x ≠ btick ∧ x ≠ '[' := fun x hx => h x (by simp [hx])
    simp only [List.foldl_cons, clcStep, if_neg h1, if_neg h2]
    rw [ih ht a (out ++ [c]) w]
    simp

/-- C8: a line ending while the scanner is still in bracket-span mode drops
the accumulated span content: it appears nowhere in the output, no closing
construct is emitted and no error is raised, while all text before the
opening bracket is emitted normally. -/
theorem c8_line_end_in_span (pre rest : Str)
    (hrest : ∀ c ∈ rest, c ≠ btick ∧ c ≠ ']')
    (hpre : ∀ c ∈ pre, c ≠ btick ∧ c ≠ '[') :
    (∀ (a out : Str) (w : List Str),
      rest.foldl clcStep ⟨Mode.link, a, out, w⟩ =
        ⟨Mode.link, a ++ rest, out, w⟩) ∧
    convert_line_content (pre ++ '[' :: rest) = (pre, []) := by
  refine ⟨link_scan rest hrest, ?_⟩
  have hbr1 : ('[' : Char) ≠ btick := by decide
  have hbr2 : ('[' : Char) ≠ ']' := by decide
  unfold convert_line_content
  rw [List.foldl_append, plain_scan pre hpre [] [] []]
  have hstep : clcStep ⟨Mode.plain, [], [] ++ pre, []⟩ '[' =
      ⟨Mode.link, [], [] ++ pre, []⟩ := by
    simp [clcStep, hbr1]
  rw [List.foldl_cons, hstep, link_scan rest hrest]
  simp

theorem c8_witness :
    (∀ c ∈ "abc".toList, c ≠ btick ∧ c ≠ ']') ∧
    (∀ c ∈ "x]y".toList, c ≠ btick ∧ c ≠ '[') ∧
    convert_line_content ("x]y".toList ++ '[' :: "abc".toList) =
      ("x]y".toList, []) :=
  ⟨by decide, by decide,
    (c8_line_end_in_span "x]y".toList "abc".toList (by decide) (by decide)).2⟩

/-- Warning-free converter, following the spec's words that warnings are
only surfaced to the operator and never alter control flow: the same rule
chain as `convert_linkish` with the warning channel removed. -/
def convert_linkish_noWarn (content : Str) (entire_line : Bool) : Str :=
  if "- ".toList.isPrefixOf content then
    "~~".toList ++ content.drop 2 ++ "~~".toList
  else if ['*'].isPrefixOf content then
    let p := separate_head content ['*']
    let rest := p.2.dropWhile pySpace
    if entire_line = true ∧ p.1 > 1 then
      List.replicate (max 1 (8 - p.1)) '#' ++ ' ' :: rest
    else
      "**".toList ++ rest ++ "**".toList
  else if ['/'].isPrefixOf content then
    '[' :: content ++ "](https://scrapbox.io".toList ++ content ++ [')']
  else if "https://gyazo.com/".toList.isPrefixOf content then
    "![](".toList ++ content ++ ".png)".toList
  else if "https://www.youtube.com/watch?v=".toList.isPrefixOf content then
    "![](".toList ++ content ++ [')']
  else
    match matchURL content with
    | some pu =>
      let desc := pyStripSpace pu.1
      if desc = [] then ' ' :: pu.2 ++ [' ']
      else '[' :: desc ++ "](".toList ++ pu.2 ++ [')']
    | none =>
      if ".icon".toList.isSuffixOf content then
        '(' :: content.take (content.length - 5) ++ [')']
      else if headIsSym content then
        btick :: content ++ [btick]
      else
        "[[".toList ++ content ++ "]]".toList

/-- Warning-free scanner state: mode, accumulator and output only. -/
structure ScanStO where
  mode : Mode
  accum : Str
  out : Str
deriving DecidableEq, Repr

/-- Warning-free scanner step of the inline converter. -/
def clcStepO (st : ScanStO) (c : Char) : ScanStO :=
  match st.mode with
  | Mode.plain =>
    if c = btick then ⟨Mode.code, st.accum, st.out ++ [c]⟩
    else if c = '[' then ⟨Mode.link, [], st.out⟩
    else ⟨Mode.plain, st.accum, st.out ++ [c]⟩
  | Mode.code =>
    if c = btick then ⟨Mode.plain, st.accum, st.out ++ [c]⟩
    else ⟨Mode.code, st.accum, st.out ++ [c]⟩
  | Mode.link =>
    if c = btick then ⟨Mode.code, st.accum, st.out ++ [c]⟩
    else if c = ']' then
      ⟨Mode.plain, st.accum, st.out ++ convert_linkish_noWarn st.accum false⟩
    else ⟨Mode.link, st.accum ++ [c], st.out⟩

/-- Warning-free inline conversion of a line's content. -/
def convert_line_content_noWarn (lc : Str) : Str :=
  (lc.foldl clcStepO ⟨Mode.plain, [], []⟩).out

/-- Warning-free conversion of a normal line. -/
def convert_normal_line_noWarn (line : Str) : Str :=
  if lineIsLinkish line then
    convert_linkish_noWarn (pyStrip "[]".toList line) true
  else
    let p := separate_head line [' ', '\t']
    if p.1 > 0 then
      List.replicate (p.1 - 1) '\t' ++ '*' :: ' ' ::
        convert_line_content_noWarn p.2
    else convert_line_content_noWarn p.2

/-- Warning-free step of the page-level code-block state machine. -/
def pageStepO (st : Bool × List Str) (line : Str) : Bool × List Str :=
  if st.1 then
    if [' '].isPrefixOf line then (true, st.2 ++ [line.drop 1])
    else (false, st.2 ++ ["```".toList])
  else
    if "code:".toList.isPrefixOf line then
      let filename := line.drop 5
      (true,
        st.2 ++ [btick :: filename ++ [btick],
          "```".toList ++ convert_filename_to_lang filename])
    else (false, st.2 ++ [convert_normal_line_noWarn line])

/-- Warning-free page conversion. -/
def convert_page_noWarn (p : Page) : Str :=
  let st := p.lines.foldl pageStepO (false, [])
  let md := if st.1 then st.2 ++ ["```".toList] else st.2
  List.intercalate ['\n'] (md ++ [[]])

lemma convert_linkish_fst (content : Str) (el : Bool) :
    (convert_linkish content el).1 = convert_linkish_noWarn content el := by
  unfold convert_linkish convert_linkish_noWarn
  rcases h : matchURL content with _ | pu <;> simp only [h] <;>
    split_ifs <;> rfl

/-- Projection dropping the warning channel from a scanner state. -/
def projO (st : ScanSt) : ScanStO := ⟨st.mode, st.accum, st.out⟩

lemma clcStepO_proj (st : ScanSt) (c : Char) :
    clcStepO (projO st) c = projO (clcStep st c) := by
  obtain ⟨m, a, o, w⟩ := st
  cases m <;> simp only [clcStep, clcStepO, projO] <;> split_ifs <;>
    simp [convert_linkish_fst]

lemma clc_fold_proj (l : Str) (st : ScanSt) :
    l.foldl clcStepO (projO st) = projO (l.foldl clcStep st) := by
  induction l generalizing st with
  | nil => rfl
  | cons c t ih =>
    rw [List.foldl_cons, List.foldl_cons, clcStepO_proj, ih]

lemma convert_line_content_fst (lc : Str) :
    (convert_line_content lc).1 = convert_line_content_noWarn lc := by
  unfold convert_line_content convert_line_content_noWarn
  rw [show (⟨Mode.plain, [], []⟩ : ScanStO) = projO ⟨Mode.plain, [], [], []⟩
    from rfl, clc_fold_proj]
  rfl

lemma convert_normal_line_fst (line : Str) :
    (convert_normal_line line).1 = convert_normal_line_noWarn line := by
  by_cases h : lineIsLinkish line = true
  · simp [convert_normal_line, convert_normal_line_noWarn, h,
      convert_linkish_fst]
  · by_cases hp : (separate_head line [' ', '\t']).1 > 0 <;>
      simp [convert_normal_line, convert_normal_line_noWarn, h, hp,
        convert_line_content_fst]

lemma pageStepO_proj (st : Bool × List Str × List Str) (line : Str) :
    pageStepO (st.1, st.2.1) line =
      ((pageStep st line).1, (pageStep st line).2.1) := by
  obtain ⟨b, md, w⟩ := st
  cases b <;> simp only [pageStep, pageStepO] <;> split_ifs <;>
    simp [convert_normal_line_fst]

lemma page_fold_proj (lines : List Str) (st : Bool × List Str × List Str) :
    lines.foldl pageStepO (st.1, st.2.1) =
      ((lines.foldl pageStep st).1, (lines.foldl pageStep st).2.1) := by
  induction lines generalizing st with
  | nil => rfl
  | cons l t ih =>
    rw [List.foldl_cons, List.foldl_cons, pageStepO_proj, ih]

/-- C9: transcoding is total — every page yields a defined output and
warning list — and the output equals the one computed by the warning-free
converter, so lossy outcomes surface only as warnings and never alter
control flow. -/
theorem c9_totality (p : Page) :
    (convert_page p).1 = convert_page_noWarn p ∧
    ∃ (md : Str) (warns : List Str), convert_page p = (md, warns) := by
  constructor
  · unfold convert_page convert_page_noWarn
    rw [show ((false, []) : Bool × List Str) =
      (((false, [], []) : Bool × List Str × List Str).1,
        ((false, [], []) : Bool × List Str × List Str).2.1) from rfl,
      page_fold_proj]
  · exact ⟨_, _, rfl⟩

